import Mathlib

/-!
Shallow embedding of src/scrape_dataset11.py and verification of its
specification claims.  Python strings are modelled as lists of characters,
parsed HTML documents as the list of their anchor elements in document order,
the filesystem as an association of paths to byte contents, and the network as
oracle functions supplied as parameters.
-/

namespace Scrape

/-- Characters of a Python string (an href, URL or path). -/
abbrev Chars := List Char

/-- An HTML anchor element: its href attribute, when present. -/
structure Anchor where
  href : Option Chars
deriving DecidableEq

/-- A parsed HTML document, as the list of its anchor elements in document
order. -/
abbrev Doc := List Anchor

/-- Python substring test `p in s`. -/
def containsSub (p : Chars) : Chars → Bool
  | [] => p.isEmpty
  | c :: t => p.isPrefixOf (c :: t) || containsSub p t

/-- The characters of the literal ".pdf". -/
def pdfSuffix : Chars := ['.', 'p', 'd', 'f']

/-- The characters of the literal ".pdf?". -/
def pdfQuery : Chars := ['.', 'p', 'd', 'f', '?']

/-- The CSS selector a[href$='.pdf'], a[href*='.pdf?'] applied to one href
value. -/
def selectorMatch (h : Chars) : Bool :=
  pdfSuffix.isSuffixOf h || containsSub pdfQuery h

/-- soup.select("a[href$='.pdf'], a[href*='.pdf?']"): the matching anchors in
document order (each element listed once). -/
def selectPdf (doc : Doc) : List Anchor :=
  doc.filter (fun a =>
    match a.href with
    | some h => selectorMatch h
    | none => false)

/-- The href-collection loop of extract_pdf_links; `if href:` keeps only truthy
(non-empty) attribute values. -/
def collectHrefs (doc : Doc) : List Chars :=
  (selectPdf doc).filterMap (fun a =>
    match a.href with
    | some h => if h.isEmpty then none else some h
    | none => none)

/-- The dedup loop of extract_pdf_links: a seen set plus an ordered
accumulator. -/
def dedupLoop {α : Type} [DecidableEq α] (seenAcc : List α) : List α → List α
  | [] => []
  | h :: t => if h ∈ seenAcc then dedupLoop seenAcc t else h :: dedupLoop (h :: seenAcc) t

/-- extract_pdf_links from src/scrape_dataset11.py (lines 178-191). -/
def extract_pdf_links (doc : Doc) : List Chars :=
  dedupLoop [] (collectHrefs doc)

/-- Claim side of C1: the hrefs of the anchors whose href ends with ".pdf" or
contains ".pdf?", in document order. -/
def matchingHrefs (doc : Doc) : List Chars :=
  doc.filterMap (fun a =>
    match a.href with
    | some h => if selectorMatch h then some h else none
    | none => none)

/-- Index of the first occurrence of x in a list (length of the list when x
does not occur). -/
def firstIdx {α : Type} [DecidableEq α] (x : α) : List α → Nat
  | [] => 0
  | a :: t => if a = x then 0 else firstIdx x t + 1

/-- The characters of the literal "page=". -/
def pageEqPat : Chars := ['p', 'a', 'g', 'e', '=']

/-- Maximal leading run of decimal digits (the greedy regex group (\d+)). -/
def digitsPrefix : Chars → Chars
  | [] => []
  | c :: t => if c.isDigit then c :: digitsPrefix t else []

/-- Numeric value of a digit string (Python int()). -/
def digitsVal (ds : Chars) : Nat :=
  ds.foldl (fun n c => n * 10 + (c.toNat - 48)) 0

/-- Match of the regex [?&]page=(\d+) anchored at the head of the string:
a '?' or '&', the literal "page=", then a maximal non-empty digit run. -/
def pageMatchAt : Chars → Option Nat
  | [] => none
  | c :: t =>
    if (c == '?' || c == '&') && pageEqPat.isPrefixOf t then
      let ds := digitsPrefix (t.drop 5)
      if ds.isEmpty then none else some (digitsVal ds)
    else none

/-- re.search(r"[?&]page=(\d+)", s): the leftmost match. -/
def searchPage : Chars → Option Nat
  | [] => none
  | c :: t =>
    match pageMatchAt (c :: t) with
    | some n => some n
    | none => searchPage t

/-- Claim side of C2: the page numbers of every occurrence of
[?&]page=(\d+) in the string, left to right. -/
def allPageNums : Chars → List Nat
  | [] => []
  | c :: t =>
    match pageMatchAt (c :: t) with
    | some n => n :: allPageNums t
    | none => allPageNums t

/-- The page list built by find_pagination_bounds: for each anchor carrying an
href that contains "page=", the first regex match of that href. -/
def anchorPages (doc : Doc) : List Nat :=
  doc.filterMap (fun a =>
    match a.href with
    | some h => if containsSub pageEqPat h then searchPage h else none
    | none => none)

/-- find_pagination_bounds from src/scrape_dataset11.py (lines 154-165). -/
def find_pagination_bounds (doc : Doc) : Nat × Nat :=
  match anchorPages doc with
  | [] => (1, 1)
  | p :: ps => (ps.foldl Nat.min p, ps.foldl Nat.max p)

/-- Claim side of C2: all page numbers appearing as ?page=N or &page=N
anywhere in any anchor href of the document. -/
def claimedPageNums (doc : Doc) : List Nat :=
  ((doc.filterMap (fun a => a.href)).map allPageNums).flatten

/-- Claim side of C2: the (min, max) pair over claimedPageNums, (1, 1) when
there is none.  Modelled from the claim's words, to compare with
find_pagination_bounds. -/
def claimedBounds (doc : Doc) : Nat × Nat :=
  match claimedPageNums doc with
  | [] => (1, 1)
  | p :: ps => (ps.foldl Nat.min p, ps.foldl Nat.max p)

/-- Amended claim side of C2: the first (leftmost) page parameter of each
anchor href, one per anchor at most. -/
def firstPageNums (doc : Doc) : List Nat :=
  doc.filterMap (fun a =>
    match a.href with
    | some h => (allPageNums h).head?
    | none => none)

/-- Characters allowed in a URL scheme (letters, digits, '+', '-', '.'). -/
def isSchemeChar (c : Char) : Bool :=
  c.isAlpha || c.isDigit || c == '+' || c == '-' || c == '.'

/-- Split a string at the first occurrence of a separator character. -/
def splitFirst (sep : Char) : Chars → Option (Chars × Chars)
  | [] => none
  | c :: t =>
    if c == sep then some ([], t)
    else
      match splitFirst sep t with
      | none => none
      | some (a, b) => some (c :: a, b)

/-- urllib.parse.urlsplit: strip a leading scheme ("https:") when the part
before the first ':' is non-empty, starts with a letter and consists of scheme
characters. -/
def dropScheme (u : Chars) : Chars :=
  match splitFirst ':' u with
  | none => u
  | some ([], _) => u
  | some (c :: cs, aft) => if c.isAlpha && (c :: cs).all isSchemeChar then aft else u

/-- True for characters that do not end the netloc part of a URL. -/
def notDelim (c : Char) : Bool := !(c == '/' || c == '?' || c == '#')

/-- urllib.parse.urlsplit: drop the //netloc part, which extends to the first
'/', '?' or '#'. -/
def dropNetloc : Chars → Chars
  | '/' :: '/' :: rest => rest.dropWhile notDelim
  | u => u

/-- urlparse(url).path: the remainder after scheme and netloc, up to the first
'?' or '#'. -/
def urlPath (u : Chars) : Chars :=
  (dropNetloc (dropScheme u)).takeWhile (fun c => !(c == '?' || c == '#'))

/-- os.path.basename for POSIX paths: the part after the last '/'. -/
def basenameChars (p : Chars) : Chars :=
  p.foldl (fun acc c => if c == '/' then [] else acc ++ [c]) []

/-- The characters of the literal "download.pdf". -/
def fallbackName : Chars := "download.pdf".toList

/-- safe_filename from src/scrape_dataset11.py (lines 194-197):
os.path.basename(urlparse(url).path) or "download.pdf". -/
def safe_filename (u : Chars) : Chars :=
  match basenameChars (urlPath u) with
  | [] => fallbackName
  | n => n

/-- A filesystem: association of paths to byte contents, most recent write
first. -/
abbrev FileSys := List (Chars × List Nat)

/-- os.path.exists. -/
def fsExists (fs : FileSys) (p : Chars) : Bool := fs.any (fun e => e.1 == p)

/-- Writing a file: replaces any previous content at the path. -/
def fsWrite (fs : FileSys) (p : Chars) (content : List Nat) : FileSys :=
  (p, content) :: fs.filter (fun e => !(e.1 == p))

/-- os.path.join for POSIX paths. -/
def joinPath (dir name : Chars) : Chars :=
  if name.head? == some '/' then name
  else if dir.isEmpty || dir.getLast? == some '/' then dir ++ name
  else dir ++ '/' :: name

/-- The network seen by requests.get(url, stream=True): either a failure
(raise_for_status or a connection error) or the list of response chunks. -/
abbrev Net := Chars → Except Unit (List (List Nat))

/-- download_file from src/scrape_dataset11.py (lines 200-222).  Besides the
(dest_path, bytes_written, skipped) result it yields the updated filesystem,
and the second component counts the GET requests performed. -/
def download_file (url destDir : Chars) (dryRun : Bool) (net : Net) (fs : FileSys) :
    Except Unit (FileSys × Chars × Nat × Bool) × Nat :=
  let dest := joinPath destDir (safe_filename url)
  if fsExists fs dest then (Except.ok (fs, dest, 0, true), 0)
  else if dryRun then (Except.ok (fs, dest, 0, true), 0)
  else
    match net url with
    | Except.error e => (Except.error e, 1)
    | Except.ok chunks =>
      (Except.ok (fsWrite fs dest chunks.flatten, dest,
        (chunks.map List.length).sum, false), 1)

/-- Exceptions of the page-fetch path: an HTTP error carrying the optional
response status (requests.HTTPError, whose e.response may be None), the
RuntimeError raised when the Playwright fetcher is not initialized, and any
other exception. -/
inductive FetchError where
  | http (status : Option Nat)
  | runtime
  | other
deriving DecidableEq

/-- A page fetcher: requests-based or Playwright-based. -/
abbrev Fetcher := Chars → Except FetchError Doc

/-- get_soup from src/scrape_dataset11.py (lines 130-151): with
force_playwright the browser fetcher is used directly (RuntimeError when
absent); otherwise the requests fetch runs and an HTTPError whose response
status is 403 falls back to the browser fetcher (RuntimeError when absent);
every other error propagates. -/
def get_soup (forcePW : Bool) (pw : Option Fetcher) (req : Fetcher) (url : Chars) :
    Except FetchError Doc :=
  if forcePW then
    match pw with
    | none => Except.error FetchError.runtime
    | some f => f url
  else
    match req url with
    | Except.ok d => Except.ok d
    | Except.error (FetchError.http (some code)) =>
      if code = 403 then
        match pw with
        | none => Except.error FetchError.runtime
        | some f => f url
      else Except.error (FetchError.http (some code))
    | Except.error e => Except.error e

/-- The characters of the literal "index.html". -/
def indexName : Chars := "index.html".toList

/-- f.lower().endswith(".pdf"). -/
def lowerPdf (n : Chars) : Bool := pdfSuffix.isSuffixOf (n.map Char.toLower)

/-- The entry name when the path p lies directly inside the directory dir. -/
def inDir (dir : Chars) (p : Chars) : Option Chars :=
  if (dir ++ ['/']).isPrefixOf p then
    let rest := p.drop (dir.length + 1)
    if rest.contains '/' then none else some rest
  else none

/-- The os.listdir filter of write_index_html: the ".pdf" entries of the
output directory.  (Their sorted order and the HTML template wrapped around
the embedded file list are abstracted: only which file gets created matters to
the claims.) -/
def dirPdfNames (dir : Chars) (fs : FileSys) : List Chars :=
  fs.filterMap (fun e =>
    match inDir dir e.1 with
    | some n => if lowerPdf n then some n else none
    | none => none)

/-- write_index_html from src/scrape_dataset11.py (lines 225-367): creates
index.html in the output directory. -/
def write_index_html (dir : Chars) (fs : FileSys) : FileSys :=
  fsWrite fs (joinPath dir indexName) (((dirPdfNames dir fs).map (fun n => n.map Char.toNat)).flatten)

/-- The mutable state of main's download loops: the seen-URL set, the log of
URLs handed to download_file in dispatch order, the filesystem, the running
totals, and the logged per-file errors of the threaded branch. -/
structure MainState where
  seen : List Chars
  dispatched : List Chars
  fs : FileSys
  skipped : Nat
  downloaded : Nat
  dlBytes : Nat
  errLog : List Chars
deriving DecidableEq

/-- Applying one download_file result in the sequential and retry loops: an
exception aborts (propagates out of main), a skipped result counts one
skipped file, otherwise the download totals grow. -/
def applyDl (st : MainState) (r : Except Unit (FileSys × Chars × Nat × Bool)) :
    MainState × Bool :=
  match r with
  | Except.error _ => (st, true)
  | Except.ok (fs2, _, bytes, wasSkip) =>
    if wasSkip then ({ st with fs := fs2, skipped := st.skipped + 1 }, false)
    else ({ st with fs := fs2, downloaded := st.downloaded + 1, dlBytes := st.dlBytes + bytes }, false)

/-- One link of the sequential branch (threads <= 1) of main's page loop
(lines 466-479): an already-seen link counts as skipped, otherwise the link is
added to the seen set, dispatched, and its result applied. -/
def seqStep (outDir : Chars) (dryRun : Bool) (net : Net) (st : MainState)
    (link : Chars) : MainState × Bool :=
  if link ∈ st.seen then ({ st with skipped := st.skipped + 1 }, false)
  else
    applyDl { st with seen := link :: st.seen, dispatched := st.dispatched ++ [link] }
      (download_file link outDir dryRun net st.fs).1

/-- The sequential branch over one page's links; an uncaught download
exception stops the loop (and the run). -/
def runSeq (outDir : Chars) (dryRun : Bool) (net : Net) :
    MainState → List Chars → MainState × Bool
  | st, [] => (st, false)
  | st, l :: ls =>
    match seqStep outDir dryRun net st l with
    | (st1, true) => (st1, true)
    | (st1, false) => runSeq outDir dryRun net st1 ls

/-- The seen-set pre-filter of the threaded branch (lines 481-487), building
to_fetch: an already-seen link counts as skipped, a fresh link joins the seen
set and to_fetch. -/
def tCollect : MainState → List Chars → MainState × List Chars
  | st, [] => (st, [])
  | st, l :: ls =>
    if l ∈ st.seen then tCollect { st with skipped := st.skipped + 1 } ls
    else
      let p := tCollect { st with seen := l :: st.seen } ls
      (p.1, l :: p.2)

/-- Handling of one completed future in the threaded branch (lines 494-508): a
raised download exception is caught, logged and counted as one skipped file;
otherwise the result is applied as in the sequential branch. -/
def applyDlCaught (st : MainState) (link : Chars)
    (r : Except Unit (FileSys × Chars × Nat × Bool)) : MainState :=
  match r with
  | Except.error _ => { st with skipped := st.skipped + 1, errLog := st.errLog ++ [link] }
  | Except.ok (fs2, _, bytes, wasSkip) =>
    if wasSkip then { st with fs := fs2, skipped := st.skipped + 1 }
    else { st with fs := fs2, downloaded := st.downloaded + 1, dlBytes := st.dlBytes + bytes }

/-- One download of the threaded branch. -/
def tStep (outDir : Chars) (dryRun : Bool) (net : Net) (st : MainState)
    (link : Chars) : MainState :=
  applyDlCaught st link (download_file link outDir dryRun net st.fs).1

/-- The threaded branch (threads > 1): pre-filter, dispatch all of to_fetch to
the pool, then fold over the completed downloads.  (The pool is modelled
sequentially; the totals are order-insensitive sums.) -/
def runThreaded (outDir : Chars) (dryRun : Bool) (net : Net) (st : MainState)
    (links : List Chars) : MainState :=
  (tCollect st links).2.foldl (tStep outDir dryRun net)
    { (tCollect st links).1 with dispatched := (tCollect st links).1.dispatched ++ (tCollect st links).2 }

/-- Processing of one page's absolute links (lines 466-508). -/
def processPage (outDir : Chars) (dryRun : Bool) (threads : Nat) (net : Net)
    (st : MainState) (links : List Chars) : MainState × Bool :=
  if threads ≤ 1 then runSeq outDir dryRun net st links
  else (runThreaded outDir dryRun net st links, false)

/-- The per-page loop of main (lines 441-532); fetch is indexed by the attempt
number (0 for the main pass) and the page parameter, resolve models
urljoin(BASE_URL, href).  Pages whose extraction yields zero links are
appended to the zero list before processing. -/
def pageLoop (outDir : Chars) (dryRun : Bool) (threads : Nat) (net : Net)
    (fetch : Nat → Nat → Doc) (resolve : Chars → Chars) :
    MainState → List Nat → List Nat → MainState × List Nat × Bool
  | st, zeroAcc, [] => (st, zeroAcc, false)
  | st, zeroAcc, pg :: pgs =>
    match processPage outDir dryRun threads net st ((extract_pdf_links (fetch 0 pg)).map resolve) with
    | (st1, true) =>
      (st1, (if (extract_pdf_links (fetch 0 pg)).isEmpty then zeroAcc ++ [pg] else zeroAcc), true)
    | (st1, false) =>
      pageLoop outDir dryRun threads net fetch resolve st1
        (if (extract_pdf_links (fetch 0 pg)).isEmpty then zeroAcc ++ [pg] else zeroAcc) pgs

/-- The per-link loop of the zero-page retry pass (lines 558-567): an
already-seen link is skipped silently (no counter), a fresh link is dispatched
and its result applied to the run totals; an exception aborts. -/
def retryLink (outDir : Chars) (dryRun : Bool) (net : Net) :
    MainState → List Chars → MainState × Bool
  | st, [] => (st, false)
  | st, l :: ls =>
    if l ∈ st.seen then retryLink outDir dryRun net st ls
    else
      match applyDl { st with seen := l :: st.seen, dispatched := st.dispatched ++ [l] }
              (download_file l outDir dryRun net st.fs).1 with
      | (st1, true) => (st1, true)
      | (st1, false) => retryLink outDir dryRun net st1 ls

/-- One retry attempt over retry_pages (lines 542-568); still-zero pages are
appended to the zero list. -/
def retryPass (outDir : Chars) (dryRun : Bool) (net : Net)
    (fetch : Nat → Nat → Doc) (resolve : Chars → Chars) (attempt : Nat) :
    MainState → List Nat → List Nat → MainState × List Nat × Bool
  | st, zeroAcc, [] => (st, zeroAcc, false)
  | st, zeroAcc, pg :: pgs =>
    if (extract_pdf_links (fetch attempt pg)).isEmpty then
      retryPass outDir dryRun net fetch resolve attempt st (zeroAcc ++ [pg]) pgs
    else
      match retryLink outDir dryRun net st ((extract_pdf_links (fetch attempt pg)).map resolve) with
      | (st1, true) => (st1, zeroAcc, true)
      | (st1, false) => retryPass outDir dryRun net fetch resolve attempt st1 zeroAcc pgs

/-- The retry loop, for attempt in range(1, zero_retries + 1) (lines 539-574).
When a pass leaves no zero page the loop breaks with an empty zero list; when
it leaves some and budget remains, the zero list moves into retry_pages and is
reset to [] for the next attempt.  On the final iteration that same move and
reset run just before the for-loop exits, so every non-aborting exit carries
an empty zero list (budget 0 case). -/
def retryLoop (outDir : Chars) (dryRun : Bool) (net : Net)
    (fetch : Nat → Nat → Doc) (resolve : Chars → Chars) :
    Nat → Nat → MainState → List Nat → MainState × List Nat × Bool
  | _, 0, st, _ => (st, [], false)
  | attempt, budget + 1, st, retryPages =>
    match retryPass outDir dryRun net fetch resolve attempt st [] retryPages with
    | (st1, zp, true) => (st1, zp, true)
    | (st1, zp, false) =>
      if zp.isEmpty then (st1, [], false)
      else retryLoop outDir dryRun net fetch resolve (attempt + 1) budget st1 zp

/-- main's page loop followed by the zero-page retry block (lines 441-574),
starting from an empty seen set over the detected page range.  Returns the
final state, the final zero_pages list, and whether an uncaught exception
aborted the run. -/
def runMain (outDir : Chars) (dryRun : Bool) (threads zeroRetries : Nat)
    (net : Net) (fetch : Nat → Nat → Doc) (resolve : Chars → Chars)
    (fs0 : FileSys) (pages : List Nat) : MainState × List Nat × Bool :=
  match pageLoop outDir dryRun threads net fetch resolve ⟨[], [], fs0, 0, 0, 0, []⟩ [] pages with
  | (st1, zp, true) => (st1, zp, true)
  | (st1, zp, false) =>
    if zp = [] ∨ zeroRetries = 0 then (st1, zp, false)
    else retryLoop outDir dryRun net fetch resolve 1 zeroRetries st1 zp

/-- The characters of the literal "zero_pages.txt". -/
def zeroName : Chars := "zero_pages.txt".toList

/-- Decimal rendering of a page number. -/
def natChars (n : Nat) : Chars := (Nat.repr n).toList

/-- The content of zero_pages.txt: sorted(set(zero_pages)), one number per
line. -/
def zeroContent (zp : List Nat) : List Nat :=
  (((List.insertionSort (fun a b => a ≤ b) (dedupLoop [] zp)).map
    (fun n => natChars n ++ ['\n'])).flatten).map Char.toNat

/-- The zero_pages.txt write (lines 576-581): only when the final zero list is
non-empty. -/
def finishZero (outDir : Chars) (fs : FileSys) (zp : List Nat) : FileSys :=
  if zp = [] then fs else fsWrite fs (joinPath outDir zeroName) (zeroContent zp)

/-- The index.html write (lines 589-591): skipped in dry-run mode. -/
def finishRun (dryRun : Bool) (outDir : Chars) (fs : FileSys) : FileSys :=
  if dryRun then fs else write_index_html outDir fs

/-- The filesystem at the end of a run of main.  When an uncaught exception
aborted the run, neither zero_pages.txt nor index.html is written. -/
def runFull (outDir : Chars) (dryRun : Bool) (threads zeroRetries : Nat)
    (net : Net) (fetch : Nat → Nat → Doc) (resolve : Chars → Chars)
    (fs0 : FileSys) (pages : List Nat) : FileSys :=
  match runMain outDir dryRun threads zeroRetries net fetch resolve fs0 pages with
  | (st, _, true) => st.fs
  | (st, zp, false) => finishRun dryRun outDir (finishZero outDir st.fs zp)

/-- The dispatch invariant of the main loops: no URL is handed to
download_file twice, and every dispatched URL is in the seen set. -/
def Inv (st : MainState) : Prop :=
  st.dispatched.Nodup ∧ ∀ l ∈ st.dispatched, l ∈ st.seen

/-- A document whose single anchor href carries two page parameters. -/
def c2doc : Doc := [⟨some ("?page=9&page=2".toList)⟩]

/-- A sample document for witnesses: two pdf anchors, one repeated, one
non-pdf anchor, one anchor without href. -/
def c1doc : Doc :=
  [⟨some ("a.pdf".toList)⟩, ⟨some ("b.pdf".toList)⟩, ⟨some ("a.pdf".toList)⟩,
   ⟨none⟩, ⟨some ("c.txt".toList)⟩]

/-- A sample absolute pdf URL. -/
def aHref : Chars := "https://x/a.pdf".toList

/-- A sample output directory. -/
def outDirC : Chars := "out".toList

/-- Fetch oracle of the C4 counterexample: the main pass sees the pdf link on
page 1 and nothing on page 2; the first retry of page 2 sees the same link. -/
def c4fetch : Nat → Nat → Doc := fun attempt pg =>
  if attempt == 0 && pg == 1 then [⟨some aHref⟩]
  else if attempt == 1 && pg == 2 then [⟨some aHref⟩]
  else []

/-- A network where every GET succeeds with one one-byte chunk. -/
def okNet : Net := fun _ => Except.ok [[7]]

/-- A state that has already seen and dispatched aHref, with 5 skips. -/
def c4st : MainState := ⟨[aHref], [aHref], [], 5, 0, 0, []⟩

/-- A fetch oracle whose every page is empty on every attempt. -/
def emptyFetch : Nat → Nat → Doc := fun _ _ => []

/-- A network where every GET raises. -/
def errNet : Net := fun _ => Except.error ()

/-- A URL that the link selector accepts (it contains ".pdf?") whose path
ends in '/' and hence has an empty final segment. -/
def c8url : Chars := "https://www.justice.gov/d/?x=.pdf?1".toList

/-- A URL whose path ends in '/'. -/
def c9url : Chars := "https://x.com/a/".toList

/-- A filesystem that already holds out/a.pdf. -/
def c3fs : FileSys := [(joinPath outDirC ("a.pdf".toList), [9])]

/-- A requests fetcher that always raises HTTPError with status 403. -/
def req403 : Fetcher := fun _ => Except.error (FetchError.http (some 403))

/-- A requests fetcher that always raises HTTPError with status 500. -/
def req500 : Fetcher := fun _ => Except.error (FetchError.http (some 500))

/-- A browser fetcher that always returns an empty document. -/
def pwOk : Fetcher := fun _ => Except.ok []

theorem dedupLoop_mem {α : Type} [DecidableEq α] (seenAcc l : List α) (x : α) :
    x ∈ dedupLoop seenAcc l ↔ x ∈ l ∧ x ∉ seenAcc := by
  induction l generalizing seenAcc with
  | nil => simp [dedupLoop]
  | cons h t ih =>
    rw [dedupLoop]
    by_cases hs : h ∈ seenAcc
    · rw [if_pos hs, ih]
      constructor
      · rintro ⟨hx, hns⟩
        exact ⟨List.mem_cons_of_mem _ hx, hns⟩
      · rintro ⟨hx, hns⟩
        rcases List.mem_cons.mp hx with rfl | hx'
        · exact absurd hs hns
        · exact ⟨hx', hns⟩
    · rw [if_neg hs]
      constructor
      · intro hx
        rcases List.mem_cons.mp hx with rfl | hx'
        · exact ⟨List.mem_cons_self _ _, hs⟩
        · rcases (ih (h :: seenAcc)).mp hx' with ⟨h1, h2⟩
          exact ⟨List.mem_cons_of_mem _ h1, fun hc => h2 (List.mem_cons_of_mem _ hc)⟩
      · rintro ⟨hx, hns⟩
        rcases List.mem_cons.mp hx with rfl | hx'
        · exact List.mem_cons_self _ _
        · by_cases hxh : x = h
          · subst hxh; exact List.mem_cons_self _ _
          · refine List.mem_cons_of_mem _ ((ih (h :: seenAcc)).mpr ⟨hx', ?_⟩)
            intro hc
            rcases List.mem_cons.mp hc with h1 | h1
            · exact hxh h1
            · exact hns h1

theorem dedupLoop_nodup {α : Type} [DecidableEq α] (seenAcc l : List α) :
    (dedupLoop seenAcc l).Nodup := by
  induction l generalizing seenAcc with
  | nil => simp [dedupLoop]
  | cons h t ih =>
    rw [dedupLoop]
    by_cases hs : h ∈ seenAcc
    · rw [if_pos hs]; exact ih seenAcc
    · rw [if_neg hs]
      refine List.nodup_cons.mpr ⟨?_, ih (h :: seenAcc)⟩
      intro hc
      exact ((dedupLoop_mem _ _ _).mp hc).2 (List.mem_cons_self _ _)

theorem pairwiseMemImp {α : Type} {R S : α → α → Prop} :
    ∀ {l : List α}, (∀ a b, a ∈ l → b ∈ l → R a b → S a b) → l.Pairwise R → l.Pairwise S := by
  intro l
  induction l with
  | nil => intro _ _; exact List.Pairwise.nil
  | cons a t ih =>
    intro h hp
    rcases List.pairwise_cons.mp hp with ⟨h1, h2⟩
    refine List.pairwise_cons.mpr ⟨?_, ?_⟩
    · intro b hb
      exact h a b (List.mem_cons_self _ _) (List.mem_cons_of_mem _ hb) (h1 b hb)
    · exact ih (fun x y hx hy => h x y (List.mem_cons_of_mem _ hx) (List.mem_cons_of_mem _ hy)) h2

theorem dedupLoop_firstIdx {α : Type} [DecidableEq α] (l : List α) :
    ∀ seenAcc, List.Pairwise (fun a b => firstIdx a l < firstIdx b l) (dedupLoop seenAcc l) := by
  induction l with
  | nil => intro seenAcc; simp [dedupLoop]
  | cons h t ih =>
    intro seenAcc
    rw [dedupLoop]
    by_cases hs : h ∈ seenAcc
    · rw [if_pos hs]
      refine pairwiseMemImp ?_ (ih seenAcc)
      intro a b ha hb hab
      have ha2 := (dedupLoop_mem seenAcc t a).mp ha
      have hb2 := (dedupLoop_mem seenAcc t b).mp hb
      have hah : ¬ (h = a) := fun he => ha2.2 (he ▸ hs)
      have hbh : ¬ (h = b) := fun he => hb2.2 (he ▸ hs)
      show (if h = a then 0 else firstIdx a t + 1) < (if h = b then 0 else firstIdx b t + 1)
      rw [if_neg hah, if_neg hbh]
      omega
    · rw [if_neg hs]
      refine List.pairwise_cons.mpr ⟨?_, ?_⟩
      · intro b hb
        have hb2 := (dedupLoop_mem _ _ _).mp hb
        have hbh : ¬ (h = b) := fun he => hb2.2 (by rw [← he]; exact List.mem_cons_self _ _)
        show (if h = h then 0 else firstIdx h t + 1) < (if h = b then 0 else firstIdx b t + 1)
        rw [if_pos rfl, if_neg hbh]
        omega
      · refine pairwiseMemImp ?_ (ih (h :: seenAcc))
        intro a b ha hb hab
        have ha2 := (dedupLoop_mem _ _ _).mp ha
        have hb2 := (dedupLoop_mem _ _ _).mp hb
        have hah : ¬ (h = a) := fun he => ha2.2 (by rw [← he]; exact List.mem_cons_self _ _)
        have hbh : ¬ (h = b) := fun he => hb2.2 (by rw [← he]; exact List.mem_cons_self _ _)
        show (if h = a then 0 else firstIdx a t + 1) < (if h = b then 0 else firstIdx b t + 1)
        rw [if_neg hah, if_neg hbh]
        omega

theorem filterMapCongr {α β : Type} (f g : α → Option β) (l : List α)
    (h : ∀ a, f a = g a) : l.filterMap f = l.filterMap g := by
  induction l with
  | nil => rfl
  | cons a t ih => rw [List.filterMap_cons, List.filterMap_cons, h a, ih]

theorem filterMapFilter {α β : Type} (p : α → Bool) (f : α → Option β) (l : List α) :
    (l.filter p).filterMap f = l.filterMap (fun a => if p a then f a else none) := by
  induction l with
  | nil => rfl
  | cons a t ih =>
    by_cases hp : p a = true
    · rw [List.filter_cons_of_pos hp, List.filterMap_cons, List.filterMap_cons, ih, if_pos hp]
    · rw [List.filter_cons_of_neg (by simpa using hp), List.filterMap_cons, ih, if_neg hp]

theorem selectorNonempty (h : Chars) (hs : selectorMatch h = true) : h.isEmpty = false := by
  cases h with
  | nil => exact absurd hs (by decide)
  | cons c t => rfl

theorem collectHrefs_eq (doc : Doc) : collectHrefs doc = matchingHrefs doc := by
  rw [collectHrefs, selectPdf, matchingHrefs, filterMapFilter]
  refine filterMapCongr _ _ _ ?_
  intro a
  cases ha : a.href with
  | none => simp [ha]
  | some h =>
    by_cases hsel : selectorMatch h = true
    · simp [ha, hsel, selectorNonempty h hsel]
    · simp [ha, hsel]

/-- C1: For every parsed HTML document, extract_pdf_links returns the hrefs of
anchors whose href ends with ".pdf" or contains ".pdf?" as a list with no
duplicate elements, preserving the order of each href's first occurrence in
the document. -/
theorem extract_pdf_links_dedup_order (doc : Doc) :
    (extract_pdf_links doc).Nodup ∧
    (∀ x, x ∈ extract_pdf_links doc ↔ x ∈ matchingHrefs doc) ∧
    List.Pairwise (fun a b => firstIdx a (matchingHrefs doc) < firstIdx b (matchingHrefs doc))
      (extract_pdf_links doc) := by
  refine ⟨dedupLoop_nodup _ _, ?_, ?_⟩
  · intro x
    simp only [extract_pdf_links]
    rw [dedupLoop_mem, collectHrefs_eq]
    simp
  · simp only [extract_pdf_links]
    rw [← collectHrefs_eq]
    exact dedupLoop_firstIdx _ _

/-- C1 witness: the property evaluated on the sample document. -/
theorem extract_pdf_links_dedup_order_witness :
    (extract_pdf_links c1doc).Nodup ∧
    ("a.pdf".toList ∈ extract_pdf_links c1doc ↔ "a.pdf".toList ∈ matchingHrefs c1doc) ∧
    List.Pairwise (fun a b => firstIdx a (matchingHrefs c1doc) < firstIdx b (matchingHrefs c1doc))
      (extract_pdf_links c1doc) :=
  ⟨(extract_pdf_links_dedup_order c1doc).1,
   (extract_pdf_links_dedup_order c1doc).2.1 _,
   (extract_pdf_links_dedup_order c1doc).2.2⟩

theorem searchPage_head (l : Chars) : searchPage l = (allPageNums l).head? := by
  induction l with
  | nil => rfl
  | cons c t ih =>
    rw [searchPage, allPageNums]
    cases hm : pageMatchAt (c :: t) with
    | some n => rfl
    | none => simpa using ih

theorem containsSubOfPrefix (p l : Chars) (h : p.isPrefixOf l = true) :
    containsSub p l = true := by
  cases l with
  | nil =>
    cases p with
    | nil => rfl
    | cons c cs => simp [List.isPrefixOf] at h
  | cons c t => simp [containsSub, h]

theorem searchPage_hasPage (l : Chars) (n : Nat) (h : searchPage l = some n) :
    containsSub pageEqPat l = true := by
  induction l with
  | nil => simp [searchPage] at h
  | cons c t ih =>
    rw [searchPage] at h
    cases hm : pageMatchAt (c :: t) with
    | some m =>
      rw [pageMatchAt] at hm
      by_cases hc : ((c == '?' || c == '&') && pageEqPat.isPrefixOf t) = true
      · have hc2 : (c == '?' || c == '&') = true ∧ pageEqPat.isPrefixOf t = true := by
          simpa using hc
        have hpre : pageEqPat.isPrefixOf t = true := hc2.2
        have ht := containsSubOfPrefix pageEqPat t hpre
        simp [containsSub, ht]
      · rw [if_neg hc] at hm
        exact absurd hm (by simp)
    | none =>
      rw [hm] at h
      have ht := ih h
      simp [containsSub, ht]

theorem guardSearchEq (h : Chars) :
    (if containsSub pageEqPat h then searchPage h else none) = (allPageNums h).head? := by
  by_cases hc : containsSub pageEqPat h = true
  · rw [if_pos hc, searchPage_head]
  · rw [if_neg hc, ← searchPage_head]
    cases hs : searchPage h with
    | none => rfl
    | some n => exact absurd (searchPage_hasPage h n hs) hc

theorem anchorPages_eq (doc : Doc) : anchorPages doc = firstPageNums doc := by
  rw [anchorPages, firstPageNums]
  refine filterMapCongr _ _ _ ?_
  intro a
  cases ha : a.href with
  | none => simp
  | some h => simpa using guardSearchEq h

theorem foldlMinLeInit (ps : List Nat) : ∀ p, List.foldl Nat.min p ps ≤ p := by
  induction ps with
  | nil => intro p; exact Nat.le_refl p
  | cons q qs ih =>
    intro p
    calc List.foldl Nat.min (Nat.min p q) qs ≤ Nat.min p q := ih _
    _ ≤ p := Nat.min_le_left _ _

theorem foldlMinLeMem (ps : List Nat) : ∀ p n, n ∈ ps → List.foldl Nat.min p ps ≤ n := by
  induction ps with
  | nil => intro p n h; cases h
  | cons q qs ih =>
    intro p n hn
    rcases List.mem_cons.mp hn with rfl | hn'
    · calc List.foldl Nat.min (Nat.min p n) qs ≤ Nat.min p n := foldlMinLeInit _ _
      _ ≤ n := Nat.min_le_right _ _
    · exact ih _ _ hn'

theorem foldlMinMem (ps : List Nat) :
    ∀ p, List.foldl Nat.min p ps = p ∨ List.foldl Nat.min p ps ∈ ps := by
  induction ps with
  | nil => intro p; left; rfl
  | cons q qs ih =>
    intro p
    have hstep : List.foldl Nat.min p (q :: qs) = List.foldl Nat.min (Nat.min p q) qs := rfl
    rcases ih (Nat.min p q) with h | h
    · rw [hstep, h]
      by_cases hpq : p ≤ q
      · left; exact Nat.min_eq_left hpq
      · right
        have hq : Nat.min p q = q := Nat.min_eq_right (Nat.le_of_lt (Nat.not_le.mp hpq))
        rw [hq]; exact List.mem_cons_self _ _
    · right; rw [hstep]; exact List.mem_cons_of_mem _ h

theorem foldlMaxGeInit (ps : List Nat) : ∀ p, p ≤ List.foldl Nat.max p ps := by
  induction ps with
  | nil => intro p; exact Nat.le_refl p
  | cons q qs ih =>
    intro p
    calc p ≤ Nat.max p q := Nat.le_max_left _ _
    _ ≤ List.foldl Nat.max (Nat.max p q) qs := ih _

theorem foldlMaxGeMem (ps : List Nat) : ∀ p n, n ∈ ps → n ≤ List.foldl Nat.max p ps := by
  induction ps with
  | nil => intro p n h; cases h
  | cons q qs ih =>
    intro p n hn
    rcases List.mem_cons.mp hn with rfl | hn'
    · calc n ≤ Nat.max p n := Nat.le_max_right _ _
      _ ≤ List.foldl Nat.max (Nat.max p n) qs := foldlMaxGeInit _ _
    · exact ih _ _ hn'

theorem foldlMaxMem (ps : List Nat) :
    ∀ p, List.foldl Nat.max p ps = p ∨ List.foldl Nat.max p ps ∈ ps := by
  induction ps with
  | nil => intro p; left; rfl
  | cons q qs ih =>
    intro p
    have hstep : List.foldl Nat.max p (q :: qs) = List.foldl Nat.max (Nat.max p q) qs := rfl
    rcases ih (Nat.max p q) with h | h
    · rw [hstep, h]
      by_cases hpq : p ≤ q
      · right
        have hq : Nat.max p q = q := Nat.max_eq_right hpq
        rw [hq]; exact List.mem_cons_self _ _
      · left; exact Nat.max_eq_left (Nat.le_of_lt (Nat.not_le.mp hpq))
    · right; rw [hstep]; exact List.mem_cons_of_mem _ h

/-- C2 counterexample: the claim computes bounds over every page parameter
occurrence, but find_pagination_bounds takes only the first match of each
anchor href; a single href carrying "?page=9&page=2" separates the two. -/
theorem find_pagination_bounds_claim_cex :
    find_pagination_bounds c2doc = (9, 9) ∧ claimedBounds c2doc = (2, 9) ∧
    find_pagination_bounds c2doc ≠ claimedBounds c2doc := by decide

/-- C2 amended: find_pagination_bounds returns (1, 1) when no anchor href
yields a page parameter, and otherwise the pair (minimum, maximum) over the
first (leftmost) ?page=N or &page=N occurrence of each anchor href. -/
theorem find_pagination_bounds_first_match (doc : Doc) :
    (firstPageNums doc = [] ∧ find_pagination_bounds doc = (1, 1)) ∨
    ((find_pagination_bounds doc).1 ∈ firstPageNums doc ∧
     (find_pagination_bounds doc).2 ∈ firstPageNums doc ∧
     ∀ n ∈ firstPageNums doc,
       (find_pagination_bounds doc).1 ≤ n ∧ n ≤ (find_pagination_bounds doc).2) := by
  rw [← anchorPages_eq]
  rw [find_pagination_bounds]
  cases hl : anchorPages doc with
  | nil => left; exact ⟨rfl, rfl⟩
  | cons p ps =>
    right
    dsimp only
    refine ⟨?_, ?_, ?_⟩
    · rcases foldlMinMem ps p with h | h
      · rw [h]; exact List.mem_cons_self _ _
      · exact List.mem_cons_of_mem _ h
    · rcases foldlMaxMem ps p with h | h
      · rw [h]; exact List.mem_cons_self _ _
      · exact List.mem_cons_of_mem _ h
    · intro n hn
      rcases List.mem_cons.mp hn with rfl | hn'
      · exact ⟨foldlMinLeInit _ _, foldlMaxGeInit _ _⟩
      · exact ⟨foldlMinLeMem _ _ _ hn', foldlMaxGeMem _ _ _ hn'⟩

/-- C2 witness: the amended property evaluated on the two-parameter
document. -/
theorem find_pagination_bounds_first_match_witness :
    (firstPageNums c2doc = [] ∧ find_pagination_bounds c2doc = (1, 1)) ∨
    ((find_pagination_bounds c2doc).1 ∈ firstPageNums c2doc ∧
     (find_pagination_bounds c2doc).2 ∈ firstPageNums c2doc ∧
     ∀ n ∈ firstPageNums c2doc,
       (find_pagination_bounds c2doc).1 ≤ n ∧ n ≤ (find_pagination_bounds c2doc).2) :=
  find_pagination_bounds_first_match c2doc

/-- C3: For every URL whose derived destination file already exists in the
output directory, download_file performs no network request (0 GET requests)
and no filesystem write (the filesystem is returned unchanged, so the existing
file's contents are untouched), and returns that path with 0 bytes written and
skipped = true. -/
theorem download_file_existing_noop (url destDir : Chars) (dryRun : Bool) (net : Net)
    (fs : FileSys) (h : fsExists fs (joinPath destDir (safe_filename url)) = true) :
    download_file url destDir dryRun net fs =
      (Except.ok (fs, joinPath destDir (safe_filename url), 0, true), 0) := by
  rw [download_file]
  simp only [h]
  rfl

/-- C3 witness: downloading out/a.pdf again when it exists is a no-op. -/
theorem download_file_existing_noop_witness :
    fsExists c3fs (joinPath outDirC (safe_filename aHref)) = true ∧
    download_file aHref outDirC false errNet c3fs =
      (Except.ok (c3fs, joinPath outDirC (safe_filename aHref), 0, true), 0) :=
  ⟨by decide, download_file_existing_noop aHref outDirC false errNet c3fs (by decide)⟩

/-- C10: In dry-run mode, download_file performs no network request and writes
no file for any URL whose target does not already exist, returning 0 bytes
written and skipped = true, and the index.html viewer page is not generated at
the end of the run. -/
theorem dry_run_no_download_no_index (url destDir outDir : Chars) (net : Net)
    (fs fs2 : FileSys)
    (h : fsExists fs (joinPath destDir (safe_filename url)) = false) :
    download_file url destDir true net fs =
      (Except.ok (fs, joinPath destDir (safe_filename url), 0, true), 0) ∧
    finishRun true outDir fs2 = fs2 := by
  constructor
  · rw [download_file]
    simp only [h]
    rfl
  · rfl

/-- C10 witness: a dry-run download of a missing file and the dry-run finish
on a sample filesystem. -/
theorem dry_run_no_download_no_index_witness :
    fsExists [] (joinPath outDirC (safe_filename aHref)) = false ∧
    download_file aHref outDirC true errNet [] =
      (Except.ok (([] : FileSys), joinPath outDirC (safe_filename aHref), 0, true), 0) ∧
    finishRun true outDirC c3fs = c3fs :=
  ⟨by decide,
   (dry_run_no_download_no_index aHref outDirC outDirC errNet [] c3fs (by decide)).1,
   (dry_run_no_download_no_index aHref outDirC outDirC errNet [] c3fs (by decide)).2⟩

/-- C8 counterexample: a URL the link selector accepts (it contains ".pdf?")
whose path "/d/" has an empty final segment; safe_filename returns
"download.pdf", not the (empty) basename of the URL path. -/
theorem safe_filename_basename_cex :
    containsSub pdfQuery c8url = true ∧
    basenameChars (urlPath c8url) = [] ∧
    safe_filename c8url = fallbackName ∧
    safe_filename c8url ≠ basenameChars (urlPath c8url) := by decide

/-- C8 amended: for every URL whose path has a non-empty final segment, the
local file name chosen by safe_filename equals that final path segment (the
basename of the URL path); when the segment is empty the fallback
"download.pdf" is used instead. -/
theorem safe_filename_nonempty_basename (u : Chars)
    (h : basenameChars (urlPath u) ≠ []) :
    safe_filename u = basenameChars (urlPath u) := by
  rw [safe_filename]
  cases hb : basenameChars (urlPath u) with
  | nil => exact absurd hb h
  | cons c t => rfl

/-- C8 witness: the sample pdf URL's filename is the basename "a.pdf" of its
path. -/
theorem safe_filename_nonempty_basename_witness :
    basenameChars (urlPath aHref) ≠ [] ∧
    safe_filename aHref = basenameChars (urlPath aHref) :=
  ⟨by decide, safe_filename_nonempty_basename aHref (by decide)⟩

/-- C9: For every URL whose path has an empty final segment (for example a
path ending in '/' or an empty path), safe_filename returns the fallback name
"download.pdf" rather than an empty file name. -/
theorem safe_filename_empty_fallback (u : Chars)
    (h : basenameChars (urlPath u) = []) :
    safe_filename u = fallbackName := by
  rw [safe_filename, h]

/-- C9 witness: a URL whose path ends in '/' falls back to "download.pdf". -/
theorem safe_filename_empty_fallback_witness :
    basenameChars (urlPath c9url) = [] ∧ safe_filename c9url = fallbackName :=
  ⟨by decide, safe_filename_empty_fallback c9url (by decide)⟩

/-- C5 counterexample: when no browser fetcher is initialized (the default run
configuration), a 403 does not yield a browser-automation fetch result;
get_soup raises a RuntimeError instead. -/
theorem get_soup_fallback_claim_cex :
    get_soup false none req403 [] = Except.error FetchError.runtime ∧
    ¬ (∀ (pw : Option Fetcher) (req : Fetcher) (url : Chars),
        req url = Except.error (FetchError.http (some 403)) →
        ∃ f, pw = some f ∧ get_soup false pw req url = f url) := by
  constructor
  · rfl
  · intro hcl
    obtain ⟨f, hf, _⟩ := hcl none req403 [] rfl
    exact Option.noConfusion hf

/-- C5 amended: when the requests fetch raises, get_soup re-raises every error
other than an HTTPError carrying a 403 response (terminating the run); for a
403 response it returns the browser-automation fetch of the same URL when the
browser fetcher is initialized, and raises a RuntimeError when it is not. -/
theorem get_soup_error_handling (pw : Option Fetcher) (req : Fetcher) (url : Chars) :
    (∀ e, req url = Except.error e → e ≠ FetchError.http (some 403) →
      get_soup false pw req url = Except.error e) ∧
    (req url = Except.error (FetchError.http (some 403)) →
      get_soup false pw req url =
        (match pw with
         | some f => f url
         | none => Except.error FetchError.runtime)) := by
  constructor
  · intro e he hne
    rw [get_soup.eq_def]
    simp only [Bool.false_eq_true, if_false, he]
    cases e with
    | http st =>
      cases st with
      | none => rfl
      | some code =>
        have hcode : ¬ (code = 403) := fun hc => hne (by rw [hc])
        simp only [if_neg hcode]
    | runtime => rfl
    | other => rfl
  · intro he
    rw [get_soup.eq_def]
    simp only [Bool.false_eq_true, if_false, he]
    cases pw with
    | none => rfl
    | some f => rfl

/-- C5 witness: a 500 re-raises and a 403 falls back to the browser fetcher. -/
theorem get_soup_error_handling_witness :
    get_soup false (some pwOk) req500 [] = Except.error (FetchError.http (some 500)) ∧
    get_soup false (some pwOk) req403 [] = pwOk [] :=
  ⟨(get_soup_error_handling (some pwOk) req500 []).1 _ rfl (by decide),
   (get_soup_error_handling (some pwOk) req403 []).2 rfl⟩

theorem nodupSnoc {α : Type} (l : List α) (a : α) (h : l.Nodup) (ha : a ∉ l) :
    (l ++ [a]).Nodup := by
  rw [List.nodup_append]
  refine ⟨h, List.nodup_singleton _, ?_⟩
  intro x hx hx2
  rw [List.mem_singleton] at hx2
  subst hx2
  exact ha hx

theorem inv_eqProj {st st2 : MainState} (h : Inv st) (hs : st2.seen = st.seen)
    (hd : st2.dispatched = st.dispatched) : Inv st2 := by
  constructor
  · rw [hd]; exact h.1
  · intro l hl
    rw [hd] at hl
    rw [hs]
    exact h.2 l hl

theorem inv_extend (st : MainState) (link : Chars) (hl : link ∉ st.seen) (h : Inv st) :
    Inv { st with seen := link :: st.seen, dispatched := st.dispatched ++ [link] } := by
  constructor
  · exact nodupSnoc _ _ h.1 (fun hm => hl (h.2 link hm))
  · intro x hx
    rcases List.mem_append.mp hx with h1 | h1
    · exact List.mem_cons_of_mem _ (h.2 x h1)
    · rw [List.mem_singleton.mp h1]; exact List.mem_cons_self _ _

theorem applyDl_proj (st : MainState) (r : Except Unit (FileSys × Chars × Nat × Bool)) :
    (applyDl st r).1.seen = st.seen ∧ (applyDl st r).1.dispatched = st.dispatched := by
  cases r with
  | error e => exact ⟨rfl, rfl⟩
  | ok v =>
    obtain ⟨fs2, dest, bytes, wasSkip⟩ := v
    cases wasSkip
    · exact ⟨rfl, rfl⟩
    · exact ⟨rfl, rfl⟩

theorem applyDlCaught_proj (st : MainState) (link : Chars)
    (r : Except Unit (FileSys × Chars × Nat × Bool)) :
    (applyDlCaught st link r).seen = st.seen ∧
    (applyDlCaught st link r).dispatched = st.dispatched := by
  cases r with
  | error e => exact ⟨rfl, rfl⟩
  | ok v =>
    obtain ⟨fs2, dest, bytes, wasSkip⟩ := v
    cases wasSkip
    · exact ⟨rfl, rfl⟩
    · exact ⟨rfl, rfl⟩

theorem seqStep_ok (outDir : Chars) (dryRun : Bool) (net : Net) (st : MainState)
    (link : Chars) (h : Inv st) :
    Inv (seqStep outDir dryRun net st link).1 ∧
    st.seen ⊆ (seqStep outDir dryRun net st link).1.seen := by
  rw [seqStep]
  by_cases hl : link ∈ st.seen
  · rw [if_pos hl]
    exact ⟨h, fun x hx => hx⟩
  · rw [if_neg hl]
    have h1 := inv_extend st link hl h
    obtain ⟨hs, hd⟩ := applyDl_proj { st with seen := link :: st.seen, dispatched := st.dispatched ++ [link] } ((download_file link outDir dryRun net st.fs).1)
    refine ⟨inv_eqProj h1 hs hd, ?_⟩
    intro x hx
    rw [hs]
    exact List.mem_cons_of_mem _ hx

theorem runSeq_ok (outDir : Chars) (dryRun : Bool) (net : Net) :
    ∀ (ls : List Chars) (st : MainState), Inv st →
    Inv (runSeq outDir dryRun net st ls).1 ∧
    st.seen ⊆ (runSeq outDir dryRun net st ls).1.seen := by
  intro ls
  induction ls with
  | nil => intro st h; exact ⟨h, fun x hx => hx⟩
  | cons l t ih =>
    intro st h
    rw [runSeq]
    cases hq : seqStep outDir dryRun net st l with
    | mk st1 b =>
      obtain ⟨h1, hsub⟩ := seqStep_ok outDir dryRun net st l h
      rw [hq] at h1 hsub
      cases b with
      | true => exact ⟨h1, hsub⟩
      | false =>
        obtain ⟨h2, hsub2⟩ := ih st1 h1
        exact ⟨h2, fun x hx => hsub2 (hsub hx)⟩

theorem tCollect_spec : ∀ (ls : List Chars) (st : MainState),
    (tCollect st ls).1.dispatched = st.dispatched ∧
    st.seen ⊆ (tCollect st ls).1.seen ∧
    (tCollect st ls).2.Nodup ∧
    (∀ x ∈ (tCollect st ls).2, x ∉ st.seen ∧ x ∈ (tCollect st ls).1.seen) := by
  intro ls
  induction ls with
  | nil =>
    intro st
    exact ⟨rfl, fun x hx => hx, List.nodup_nil, by intro x hx; cases hx⟩
  | cons l t ih =>
    intro st
    rw [tCollect]
    by_cases hl : l ∈ st.seen
    · rw [if_pos hl]
      exact ih { st with skipped := st.skipped + 1 }
    · rw [if_neg hl]
      obtain ⟨hd, hsub, hnd, hmem⟩ := ih { st with seen := l :: st.seen }
      refine ⟨hd, ?_, ?_, ?_⟩
      · intro x hx
        exact hsub (List.mem_cons_of_mem _ hx)
      · refine List.nodup_cons.mpr ⟨?_, hnd⟩
        intro hc
        exact (hmem l hc).1 (List.mem_cons_self _ _)
      · intro x hx
        rcases List.mem_cons.mp hx with rfl | hx'
        · exact ⟨hl, hsub (List.mem_cons_self _ _)⟩
        · obtain ⟨h1, h2⟩ := hmem x hx'
          exact ⟨fun hc => h1 (List.mem_cons_of_mem _ hc), h2⟩

theorem foldl_tStep_proj (outDir : Chars) (dryRun : Bool) (net : Net) :
    ∀ (ls : List Chars) (st : MainState),
    (ls.foldl (tStep outDir dryRun net) st).seen = st.seen ∧
    (ls.foldl (tStep outDir dryRun net) st).dispatched = st.dispatched := by
  intro ls
  induction ls with
  | nil => intro st; exact ⟨rfl, rfl⟩
  | cons l t ih =>
    intro st
    rw [List.foldl_cons]
    obtain ⟨hs, hd⟩ := ih (tStep outDir dryRun net st l)
    obtain ⟨hs2, hd2⟩ := applyDlCaught_proj st l ((download_file l outDir dryRun net st.fs).1)
    exact ⟨hs.trans hs2, hd.trans hd2⟩

theorem runThreaded_ok (outDir : Chars) (dryRun : Bool) (net : Net) (st : MainState)
    (links : List Chars) (h : Inv st) :
    Inv (runThreaded outDir dryRun net st links) ∧
    st.seen ⊆ (runThreaded outDir dryRun net st links).seen := by
  obtain ⟨hd, hsub, hnd, hmem⟩ := tCollect_spec links st
  rw [runThreaded]
  obtain ⟨hs2, hd2⟩ := foldl_tStep_proj outDir dryRun net (tCollect st links).2
    { (tCollect st links).1 with dispatched := (tCollect st links).1.dispatched ++ (tCollect st links).2 }
  constructor
  · constructor
    · rw [hd2]
      show ((tCollect st links).1.dispatched ++ (tCollect st links).2).Nodup
      rw [hd, List.nodup_append]
      refine ⟨h.1, hnd, ?_⟩
      intro x hx hx2
      exact (hmem x hx2).1 (h.2 x hx)
    · intro l hl
      rw [hd2] at hl
      rw [hs2]
      show l ∈ (tCollect st links).1.seen
      replace hl : l ∈ (tCollect st links).1.dispatched ++ (tCollect st links).2 := hl
      rw [hd] at hl
      rcases List.mem_append.mp hl with h1 | h1
      · exact hsub (h.2 l h1)
      · exact (hmem l h1).2
  · intro x hx
    rw [hs2]
    exact hsub hx

theorem processPage_ok (outDir : Chars) (dryRun : Bool) (threads : Nat) (net : Net)
    (st : MainState) (links : List Chars) (h : Inv st) :
    Inv (processPage outDir dryRun threads net st links).1 ∧
    st.seen ⊆ (processPage outDir dryRun threads net st links).1.seen := by
  rw [processPage]
  by_cases ht : threads ≤ 1
  · rw [if_pos ht]; exact runSeq_ok outDir dryRun net links st h
  · rw [if_neg ht]; exact runThreaded_ok outDir dryRun net st links h

theorem pageLoop_ok (outDir : Chars) (dryRun : Bool) (threads : Nat) (net : Net)
    (fetch : Nat → Nat → Doc) (resolve : Chars → Chars) :
    ∀ (pgs : List Nat) (st : MainState) (zeroAcc : List Nat), Inv st →
    Inv (pageLoop outDir dryRun threads net fetch resolve st zeroAcc pgs).1 := by
  intro pgs
  induction pgs with
  | nil => intro st zeroAcc h; exact h
  | cons pg pgs ih =>
    intro st zeroAcc h
    rw [pageLoop]
    cases hq : processPage outDir dryRun threads net st ((extract_pdf_links (fetch 0 pg)).map resolve) with
    | mk st1 b =>
      obtain ⟨h1, _⟩ := processPage_ok outDir dryRun threads net st ((extract_pdf_links (fetch 0 pg)).map resolve) h
      rw [hq] at h1
      cases b with
      | true => exact h1
      | false => exact ih st1 _ h1

theorem retryLink_ok (outDir : Chars) (dryRun : Bool) (net : Net) :
    ∀ (ls : List Chars) (st : MainState), Inv st →
    Inv (retryLink outDir dryRun net st ls).1 := by
  intro ls
  induction ls with
  | nil => intro st h; exact h
  | cons l t ih =>
    intro st h
    rw [retryLink]
    by_cases hl : l ∈ st.seen
    · rw [if_pos hl]; exact ih st h
    · rw [if_neg hl]
      have h1 := inv_extend st l hl h
      cases hq : applyDl { st with seen := l :: st.seen, dispatched := st.dispatched ++ [l] } ((download_file l outDir dryRun net st.fs).1) with
      | mk st1 b =>
        obtain ⟨hs, hd⟩ := applyDl_proj { st with seen := l :: st.seen, dispatched := st.dispatched ++ [l] } ((download_file l outDir dryRun net st.fs).1)
        rw [hq] at hs hd
        have h2 : Inv st1 := inv_eqProj h1 hs hd
        cases b with
        | true => exact h2
        | false => exact ih st1 h2

theorem retryPass_ok (outDir : Chars) (dryRun : Bool) (net : Net)
    (fetch : Nat → Nat → Doc) (resolve : Chars → Chars) (attempt : Nat) :
    ∀ (pgs : List Nat) (st : MainState) (zeroAcc : List Nat), Inv st →
    Inv (retryPass outDir dryRun net fetch resolve attempt st zeroAcc pgs).1 := by
  intro pgs
  induction pgs with
  | nil => intro st zeroAcc h; exact h
  | cons pg pgs ih =>
    intro st zeroAcc h
    rw [retryPass]
    by_cases he : (extract_pdf_links (fetch attempt pg)).isEmpty = true
    · rw [if_pos he]; exact ih st _ h
    · rw [if_neg he]
      cases hq : retryLink outDir dryRun net st ((extract_pdf_links (fetch attempt pg)).map resolve) with
      | mk st1 b =>
        have h1 := retryLink_ok outDir dryRun net ((extract_pdf_links (fetch attempt pg)).map resolve) st h
        rw [hq] at h1
        cases b with
        | true => exact h1
        | false => exact ih st1 _ h1

theorem retryLoop_ok (outDir : Chars) (dryRun : Bool) (net : Net)
    (fetch : Nat → Nat → Doc) (resolve : Chars → Chars) :
    ∀ (budget attempt : Nat) (st : MainState) (rp : List Nat), Inv st →
    Inv (retryLoop outDir dryRun net fetch resolve attempt budget st rp).1 := by
  intro budget
  induction budget with
  | zero => intro attempt st rp h; exact h
  | succ b ih =>
    intro attempt st rp h
    rw [retryLoop]
    cases hq : retryPass outDir dryRun net fetch resolve attempt st [] rp with
    | mk st1 rest =>
      obtain ⟨zp, ab⟩ := rest
      have h1 := retryPass_ok outDir dryRun net fetch resolve attempt rp st [] h
      rw [hq] at h1
      cases ab with
      | true => exact h1
      | false =>
        dsimp only
        by_cases hz : zp.isEmpty = true
        · rw [if_pos hz]; exact h1
        · rw [if_neg hz]; exact ih (attempt + 1) st1 zp h1

theorem runMain_inv (outDir : Chars) (dryRun : Bool) (threads zeroRetries : Nat)
    (net : Net) (fetch : Nat → Nat → Doc) (resolve : Chars → Chars)
    (fs0 : FileSys) (pages : List Nat) :
    Inv (runMain outDir dryRun threads zeroRetries net fetch resolve fs0 pages).1 := by
  have h0 : Inv (⟨[], [], fs0, 0, 0, 0, []⟩ : MainState) :=
    ⟨List.nodup_nil, by intro l hl; cases hl⟩
  rw [runMain]
  cases hq : pageLoop outDir dryRun threads net fetch resolve ⟨[], [], fs0, 0, 0, 0, []⟩ [] pages with
  | mk st1 rest =>
    obtain ⟨zp, ab⟩ := rest
    have h1 := pageLoop_ok outDir dryRun threads net fetch resolve pages ⟨[], [], fs0, 0, 0, 0, []⟩ [] h0
    rw [hq] at h1
    cases ab with
    | true => exact h1
    | false =>
      dsimp only
      by_cases hc : zp = [] ∨ zeroRetries = 0
      · rw [if_pos hc]; exact h1
      · rw [if_neg hc]
        exact retryLoop_ok outDir dryRun net fetch resolve zeroRetries 1 st1 zp h1

/-- C4 counterexample: the retry pass does not count an already-seen URL as
skipped.  In a run where page 1 yields the pdf link (dispatched and
downloaded) and the retry of zero-result page 2 yields the same link, the
total skipped count stays 0, and on a state that has already seen the link the
retry per-link loop returns the state unchanged (skipped stays 5). -/
theorem retry_pass_seen_not_counted_cex :
    (runMain outDirC false 1 1 okNet c4fetch id [] [1, 2]).1.dispatched = [aHref] ∧
    extract_pdf_links (c4fetch 1 2) = [aHref] ∧
    retryLink outDirC false okNet c4st [aHref] = (c4st, false) ∧
    (runMain outDirC false 1 1 okNet c4fetch id [] [1, 2]).1.skipped = 0 := by decide

/-- C4 amended: within a single run every absolute file URL is dispatched to
download_file at most once; the sequential branch, the threaded branch and the
zero-page retry pass all check the seen-URL set before dispatch and add each
newly dispatched URL to it, and the sequential and threaded branches count an
already-seen URL as skipped, while the retry pass skips it silently without
touching any counter. -/
theorem dispatch_at_most_once (outDir : Chars) (dryRun : Bool) (threads zeroRetries : Nat)
    (net : Net) (fetch : Nat → Nat → Doc) (resolve : Chars → Chars) (fs0 : FileSys)
    (pages : List Nat) :
    (runMain outDir dryRun threads zeroRetries net fetch resolve fs0 pages).1.dispatched.Nodup ∧
    (∀ l ∈ (runMain outDir dryRun threads zeroRetries net fetch resolve fs0 pages).1.dispatched,
      l ∈ (runMain outDir dryRun threads zeroRetries net fetch resolve fs0 pages).1.seen) ∧
    (∀ (st : MainState) (l : Chars), l ∈ st.seen →
      seqStep outDir dryRun net st l = ({ st with skipped := st.skipped + 1 }, false)) ∧
    (∀ (st : MainState) (l : Chars) (ls : List Chars), l ∈ st.seen →
      tCollect st (l :: ls) = tCollect { st with skipped := st.skipped + 1 } ls) ∧
    (∀ (st : MainState) (l : Chars) (ls : List Chars), l ∈ st.seen →
      retryLink outDir dryRun net st (l :: ls) = retryLink outDir dryRun net st ls) := by
  refine ⟨(runMain_inv outDir dryRun threads zeroRetries net fetch resolve fs0 pages).1,
    (runMain_inv outDir dryRun threads zeroRetries net fetch resolve fs0 pages).2, ?_, ?_, ?_⟩
  · intro st l hl; rw [seqStep, if_pos hl]
  · intro st l ls hl; rw [tCollect, if_pos hl]
  · intro st l ls hl; rw [retryLink, if_pos hl]

/-- C4 witness: the amended property evaluated on the counterexample run and
on a state that has already seen the sample URL. -/
theorem dispatch_at_most_once_witness :
    (runMain outDirC false 1 1 okNet c4fetch id [] [1, 2]).1.dispatched.Nodup ∧
    aHref ∈ (runMain outDirC false 1 1 okNet c4fetch id [] [1, 2]).1.seen ∧
    seqStep outDirC false okNet c4st aHref = ({ c4st with skipped := c4st.skipped + 1 }, false) ∧
    tCollect c4st [aHref] = tCollect { c4st with skipped := c4st.skipped + 1 } [] ∧
    retryLink outDirC false okNet c4st [aHref] = retryLink outDirC false okNet c4st [] :=
  ⟨(dispatch_at_most_once outDirC false 1 1 okNet c4fetch id [] [1, 2]).1,
   (dispatch_at_most_once outDirC false 1 1 okNet c4fetch id [] [1, 2]).2.1 aHref (by decide),
   (dispatch_at_most_once outDirC false 1 1 okNet c4fetch id [] [1, 2]).2.2.1 c4st aHref (by decide),
   (dispatch_at_most_once outDirC false 1 1 okNet c4fetch id [] [1, 2]).2.2.2.1 c4st aHref [] (by decide),
   (dispatch_at_most_once outDirC false 1 1 okNet c4fetch id [] [1, 2]).2.2.2.2 c4st aHref [] (by decide)⟩

/-- C6 (code bug): a page that yields zero links in the main pass and in every
retry attempt is never recorded.  With the default zero_retries = 1, the retry
loop moves zero_pages into retry_pages and resets it to [] at the end of its
final iteration, so the run ends with an empty zero_pages list and
zero_pages.txt is not written; with zero_retries = 0 (no retry loop) the same
page is recorded, which is the behavior the claim describes. -/
theorem zero_pages_file_never_written :
    extract_pdf_links (emptyFetch 0 1) = [] ∧
    extract_pdf_links (emptyFetch 1 1) = [] ∧
    (runMain outDirC true 1 1 errNet emptyFetch id [] [1]).2.1 = [] ∧
    fsExists (runFull outDirC true 1 1 errNet emptyFetch id [] [1])
      (joinPath outDirC zeroName) = false ∧
    fsExists (runFull outDirC true 1 0 errNet emptyFetch id [] [1])
      (joinPath outDirC zeroName) = true := by decide

/-- C7: In threaded mode an exception raised by a single file download is
caught, logged and counted as one skipped file (nothing is added to the
download totals), the set of dispatched downloads and the seen set do not
depend on download outcomes (processing of the remaining downloads continues),
and the threaded page processing never aborts the run. -/
theorem threaded_failure_isolation (outDir : Chars) (dryRun : Bool) (net net2 : Net)
    (st : MainState) (link : Chars) (links : List Chars) (threads : Nat) :
    ((download_file link outDir dryRun net st.fs).1 = Except.error () →
      (tStep outDir dryRun net st link).skipped = st.skipped + 1 ∧
      (tStep outDir dryRun net st link).downloaded = st.downloaded ∧
      (tStep outDir dryRun net st link).dlBytes = st.dlBytes ∧
      (tStep outDir dryRun net st link).errLog = st.errLog ++ [link]) ∧
    (runThreaded outDir dryRun net st links).seen = (runThreaded outDir dryRun net2 st links).seen ∧
    (runThreaded outDir dryRun net st links).dispatched = (runThreaded outDir dryRun net2 st links).dispatched ∧
    (2 ≤ threads → processPage outDir dryRun threads net st links =
      (runThreaded outDir dryRun net st links, false)) := by
  refine ⟨?_, ?_, ?_, ?_⟩
  · intro he
    rw [tStep, he]
    exact ⟨rfl, rfl, rfl, rfl⟩
  · rw [runThreaded, runThreaded,
      (foldl_tStep_proj outDir dryRun net _ _).1, (foldl_tStep_proj outDir dryRun net2 _ _).1]
  · rw [runThreaded, runThreaded,
      (foldl_tStep_proj outDir dryRun net _ _).2, (foldl_tStep_proj outDir dryRun net2 _ _).2]
  · intro ht
    rw [processPage, if_neg (by omega)]

/-- C7 witness: a failing download on the sample state is counted as one
skipped file, the dispatch schedule agrees between a failing and a succeeding
network, and threaded page processing does not abort. -/
theorem threaded_failure_isolation_witness :
    (download_file aHref outDirC false errNet c4st.fs).1 = Except.error () ∧
    (tStep outDirC false errNet c4st aHref).skipped = c4st.skipped + 1 ∧
    (tStep outDirC false errNet c4st aHref).downloaded = c4st.downloaded ∧
    (tStep outDirC false errNet c4st aHref).errLog = c4st.errLog ++ [aHref] ∧
    (runThreaded outDirC false errNet c4st [aHref]).seen =
      (runThreaded outDirC false okNet c4st [aHref]).seen ∧
    processPage outDirC false 2 errNet c4st [aHref] =
      (runThreaded outDirC false errNet c4st [aHref], false) := by
  have h := threaded_failure_isolation outDirC false errNet okNet c4st aHref [aHref] 2
  exact ⟨rfl, (h.1 rfl).1, (h.1 rfl).2.1, (h.1 rfl).2.2.2, h.2.1, h.2.2.2 (by omega)⟩

end Scrape
